import Mathlib

set_option maxHeartbeats 1000000

/-!
Shallow embedding of the `xmlbuilder` markup-generation library
(`src/xmlbuilder/__init__.py`) and proofs about its specification.

Strings are modelled by Lean `String`/`List Char`.  Python's
`str.replace` with a single-character pattern is embedded as a
character-wise `flatMap` (`replaceChar`), which is exactly the
behaviour of `replace` for one-character patterns.  The stdlib
helpers `xml.sax.saxutils.escape` and `quoteattr`, which the source
imports and uses, are embedded faithfully from their reference
implementation (`&` replaced first, then `>`, then `<`; `quoteattr`
additionally mapping newline, carriage return and tab to character
references before choosing the quote character).
-/

/-- Python's `s.replace(pat, rep)` for a single-character pattern `pat`:
every occurrence of the character is replaced by `rep`. -/
def replaceChar (pat : Char) (rep : List Char) (s : List Char) : List Char :=
  s.flatMap fun c => if c = pat then rep else [c]

/-- `xml.sax.saxutils.escape` on character lists: the three sequential
replacements in the stdlib's order (`&` first, then `>`, then `<`). -/
def escapeL (s : List Char) : List Char :=
  replaceChar '<' "&lt;".toList
    (replaceChar '>' "&gt;".toList
      (replaceChar '&' "&amp;".toList s))

/-- `xml.sax.saxutils.escape` on strings. -/
def escape (s : String) : String :=
  String.mk (escapeL s.toList)

/-- `xml.sax.saxutils.quoteattr` on character lists: escape plus the
extra entities `\n -> &#10;`, `\r -> &#13;`, `\t -> &#9;` (applied in
the dict's insertion order), then wrap in quotes, preferring double
quotes and switching to single quotes (or entity-escaping the double
quote) as the content requires. -/
def quoteWrap (d : List Char) : List Char :=
  if '"' ∈ d then
    if '\'' ∈ d then '"' :: replaceChar '"' "&quot;".toList d ++ ['"']
    else '\'' :: d ++ ['\'']
  else '"' :: d ++ ['"']

/-- `xml.sax.saxutils.quoteattr` on character lists (see `quoteWrap` for
the quote-selection step). -/
def quoteattrL (s : List Char) : List Char :=
  quoteWrap (replaceChar '\t' "&#9;".toList
    (replaceChar '\r' "&#13;".toList
      (replaceChar '\n' "&#10;".toList (escapeL s))))

/-- `xml.sax.saxutils.quoteattr` on strings. -/
def quoteattr (s : String) : String :=
  String.mk (quoteattrL s.toList)

/-- A string value together with its `Safe` status: `Safe` is a `str`
subclass in the source, so a value is a string that either does or
does not carry the `Safe` marker.  Content-level operations
(equality, emptiness, regex search) see the underlying string. -/
inductive SVal where
  | raw (s : String)
  | safe (s : String)
deriving DecidableEq

/-- The underlying string content of a value (what `str` operations see). -/
def svalStr : SVal → String
  | .raw s => s
  | .safe s => s

/-- `Safe.text`: escape text and mark it safe. -/
def safeText (s : String) : SVal := .safe (escape s)

/-- `Safe.attr`: quote an attribute value and mark it safe. -/
def safeAttr (s : String) : SVal := .safe (quoteattr s)

/-- `safetext(value)`: pass `Safe` values through unchanged, escape raw ones. -/
def safetext : SVal → SVal
  | .safe s => .safe s
  | .raw s => safeText s

/-- `safeattr(value)`: pass `Safe` values through unchanged, quote raw ones. -/
def safeattr : SVal → SVal
  | .safe s => .safe s
  | .raw s => safeAttr s

/-- One-pass character-wise escaping map: what a single simultaneous
traversal replacing `&`, `<`, `>` by their entities would do to one
character. -/
def escChar (c : Char) : List Char :=
  if c = '&' then "&amp;".toList
  else if c = '<' then "&lt;".toList
  else if c = '>' then "&gt;".toList
  else [c]

theorem replaceChar_nil (p : Char) (r : List Char) : replaceChar p r [] = [] := rfl

theorem replaceChar_cons (p : Char) (r : List Char) (c : Char) (s : List Char) :
    replaceChar p r (c :: s) = (if c = p then r else [c]) ++ replaceChar p r s := by
  simp [replaceChar]

theorem replaceChar_append (p : Char) (r : List Char) (a b : List Char) :
    replaceChar p r (a ++ b) = replaceChar p r a ++ replaceChar p r b := by
  simp [replaceChar]

/-- If the pattern character does not occur, `replaceChar` is the identity. -/
theorem replaceChar_id (p : Char) (r : List Char) (s : List Char) (h : p ∉ s) :
    replaceChar p r s = s := by
  induction s with
  | nil => rfl
  | cons c s ih =>
    rw [replaceChar_cons]
    have hc : ¬ c = p := fun hcp => h (hcp ▸ List.mem_cons_self c s)
    rw [if_neg hc, ih (fun hm => h (List.mem_cons_of_mem c hm))]
    rfl

/-- The three sequential replacement passes of `escape` are equivalent to a
single simultaneous character-wise pass: each input character is rewritten
exactly once, so the entities introduced by the `&` pass (which contain `&`)
and by the `>`/`<` passes are never themselves re-escaped. -/
theorem escapeL_eq_flatMap (s : List Char) : escapeL s = s.flatMap escChar := by
  induction s with
  | nil => rfl
  | cons c s ih =>
    show replaceChar '<' _ (replaceChar '>' _ (replaceChar '&' _ (c :: s)))
        = (c :: s).flatMap escChar
    rw [replaceChar_cons, replaceChar_append, replaceChar_append,
      List.flatMap_cons]
    have tail : replaceChar '<' "&lt;".toList
        (replaceChar '>' "&gt;".toList (replaceChar '&' "&amp;".toList s))
        = s.flatMap escChar := ih
    rw [tail]
    congr 1
    by_cases h1 : c = '&'
    · subst h1; decide
    · rw [if_neg h1]
      by_cases h2 : c = '>'
      · subst h2; decide
      · by_cases h3 : c = '<'
        · subst h3; decide
        · rw [replaceChar_cons, replaceChar_nil, if_neg h2, List.append_nil,
            replaceChar_cons, replaceChar_nil, if_neg h3, List.append_nil]
          simp [escChar, h1, h2, h3]

/-- C2: the text-escaping function is total over all strings (it is a total
function of the whole string type) and rewrites each character of the input
exactly once: `&` to `&amp;`, `<` to `&lt;`, `>` to `&gt;`, every other
character kept.  Because the `&` pass runs first, the entities introduced
by the replacements are never re-escaped — stated as the equality of the
source's three-pass `escape` with a single simultaneous character-wise
pass over the original input. -/
theorem escape_replaces_each_char_once (s : String) :
    (escape s).toList = s.toList.flatMap escChar :=
  escapeL_eq_flatMap s.toList

/-- C1: a value already carrying the `Safe` marker passes through
`safetext` and `safeattr` unchanged, and both safe-checking paths are
idempotent on every value. -/
theorem safetext_safeattr_idempotent :
    (∀ s : String, safetext (.safe s) = .safe s ∧ safeattr (.safe s) = .safe s) ∧
    (∀ v : SVal, safetext (safetext v) = safetext v ∧
      safeattr (safeattr v) = safeattr v) := by
  refine ⟨fun s => ⟨rfl, rfl⟩, fun v => ?_⟩
  cases v <;> exact ⟨rfl, rfl⟩

/-- Python's `keyword.kwlist` (Python 3.10+, as required by the source
module): the reserved words from which the keyword-unmangling table
`kwunmangle` is built. -/
def kwlist : List String :=
  ["False", "None", "True", "and", "as", "assert", "async", "await",
   "break", "class", "continue", "def", "del", "elif", "else", "except",
   "finally", "for", "from", "global", "if",
   "import", "in", "is", "lambda", "nonlocal", "not", "or", "pass",
   "raise", "return", "try", "while", "with", "yield"]

/-- Lookup in the `kwunmangle` dictionary built as `k + '_' -> k` for every
keyword `k`: `kwunmangle.get(name, name)`. -/
def kwunmangle (name : String) : String :=
  match kwlist.find? (fun k => name == k ++ "_") with
  | some k => k
  | none => name

/-- Python's `name.replace('__', ':')`: a left-to-right, non-overlapping
scan replacing each doubled underscore by a colon. -/
def colonrep : List Char → List Char
  | [] => []
  | [c] => [c]
  | c1 :: c2 :: rest =>
    if c1 = '_' then
      if c2 = '_' then ':' :: colonrep rest
      else c1 :: colonrep (c2 :: rest)
    else c1 :: colonrep (c2 :: rest)

/-- `nameprep(name)`: undo keyword and colon mangling. -/
def nameprep (name : String) : String :=
  String.mk (colonrep (kwunmangle name).toList)

theorem colonrep_cons_ne (c : Char) (hc : ¬ c = '_') (t : List Char) :
    colonrep (c :: t) = c :: colonrep t := by
  cases t with
  | nil => rfl
  | cons c2 rest => simp [colonrep, hc]

/-- C8 counterexample: `nameprep` does not strip the trailing underscore of
`"x_"` (only exact Python reserved words followed by an underscore are
unmangled), refuting the claim that a trailing underscore is stripped for
every tag or attribute name. -/
theorem nameprep_keeps_nonkeyword_trailing_underscore :
    nameprep "x_" = "x_" ∧ nameprep "x_" ≠ "x" := by
  constructor <;> decide

/-- C8 amended: name preparation is a pure function of the name that
(1) strips the trailing underscore exactly of names of the form
`keyword + "_"` (recovering reserved-word collisions), (2) on every other
name performs only the doubled-underscore scan, and (3) the scan turns a
doubled underscore following an underscore-free prefix into the namespace
separator `:` and continues on the remainder. -/
theorem nameprep_characterization :
    (∀ k, k ∈ kwlist → nameprep (k ++ "_") = k) ∧
    (∀ n : String, (∀ k, k ∈ kwlist → n ≠ k ++ "_") →
      nameprep n = String.mk (colonrep n.toList)) ∧
    (∀ l r : List Char, '_' ∉ l →
      colonrep (l ++ '_' :: '_' :: r) = l ++ ':' :: colonrep r) := by
  refine ⟨?_, ?_, ?_⟩
  · intro k hk
    fin_cases hk <;> decide
  · intro n h
    have hfind : kwlist.find? (fun k => n == k ++ "_") = none := by
      rw [List.find?_eq_none]
      intro k hk
      simp only [beq_iff_eq]
      exact h k hk
    unfold nameprep kwunmangle
    rw [hfind]
  · intro l r hl
    induction l with
    | nil => simp [colonrep]
    | cons c t ih =>
      have hc : ¬ c = '_' := fun hcp => hl (hcp ▸ List.mem_cons_self c t)
      have ht : '_' ∉ t := fun hm => hl (List.mem_cons_of_mem c hm)
      cases t with
      | nil =>
        simp only [List.nil_append, List.cons_append]
        rw [colonrep_cons_ne c hc]
        simp [colonrep]
      | cons c2 t2 =>
        simp only [List.cons_append]
        rw [colonrep_cons_ne c hc]
        have ihh := ih ht
        simp only [List.cons_append] at ihh
        rw [ihh]

/-- Witness for `nameprep_characterization`: the keyword `class_` unmangles
to `class`, the non-keyword `x_` goes through the colon scan only, and the
scan maps `xmlns__my` style doubled underscores to a colon. -/
theorem nameprep_characterization_witness :
    nameprep ("class" ++ "_") = "class" ∧
    nameprep "x_" = String.mk (colonrep "x_".toList) ∧
    colonrep ("xmlns".toList ++ '_' :: '_' :: "my".toList)
      = "xmlns".toList ++ ':' :: colonrep "my".toList :=
  ⟨nameprep_characterization.1 "class" (by decide),
   nameprep_characterization.2.1 "x_" (by decide),
   nameprep_characterization.2.2 "xmlns".toList "my".toList (by decide)⟩

/-- The mutable state of one `XMLBuilder` document with the in-memory
sink: the `_document` list of written chunks, the shared `_indentation`
counter, and the `_indent` unit (`none` models Python's `indent=None`). -/
structure BuilderState where
  document : List String
  indentation : Int
  indent : Option String
deriving DecidableEq

/-- `XMLBuilder._write(line, indent)`: a negative delta is applied to the
shared counter before the line is framed, a positive one only after the
framed line has been appended; with `_indent = None` the line is appended
verbatim, otherwise it is prefixed by `indentation` copies of the indent
unit and terminated by a newline.  (Python's `n * unit` is empty for
`n <= 0`, hence `Int.toNat`.) -/
def _write (st : BuilderState) (line : String) (ind : Int) : BuilderState :=
  let st1 := if ind < 0 then { st with indentation := st.indentation + ind } else st
  let out := match st1.indent with
    | some u => String.join (List.replicate st1.indentation.toNat u) ++ line ++ "\n"
    | none => line
  let st2 := { st1 with document := st1.document ++ [out] }
  if ind > 0 then { st2 with indentation := st2.indentation + ind } else st2

/-- `XMLBuilder.__init__` with the in-memory sink: start from `['']`,
depth 0, and write the XML declaration when both `version` and
`encoding` are non-empty. -/
def mkXMLBuilder (version encoding : String) (indent : Option String) : BuilderState :=
  let st : BuilderState := ⟨[""], 0, indent⟩
  if version ≠ "" ∧ encoding ≠ "" then
    _write st ("<?xml version=\"" ++ version ++ "\" encoding=\"" ++ encoding
      ++ "\"?>") 0
  else st

/-- An attribute value as supplied by the caller in `**attrs`:
`None`, `False`, `True`, or a (possibly `Safe`) string. -/
inductive AttrValue where
  | aNone
  | aFalse
  | aTrue
  | aStr (v : SVal)
deriving DecidableEq

/-- An attribute value that survived `__call__`'s
`value not in (None, False)` filter and reaches `_attr`. -/
inductive LiveValue where
  | lTrue
  | lStr (v : SVal)
deriving DecidableEq

/-- The `value not in (None, False)` filter of `Element.__call__`:
`None` and `False` are dropped, everything else reaches `_attr`. -/
def liveValue : AttrValue → Option LiveValue
  | .aNone => none
  | .aFalse => none
  | .aTrue => some .lTrue
  | .aStr v => some (.lStr v)

/-- The attribute-serialization join of `Element.__call__`:
`''.join(' ' + _attr(a, v) for a, v in attrs.items() if v not in (None, False))`,
in the caller's insertion order, parameterized by the owning builder's
`_attr` (variant policy). -/
def renderAttrs (attrF : String → LiveValue → List Char)
    (attrs : List (String × AttrValue)) : List Char :=
  attrs.flatMap fun p =>
    match liveValue p.2 with
    | none => []
    | some lv => ' ' :: attrF p.1 lv

/-- `XMLBuilder._attr`: `True` is first replaced by the raw attribute
name, then the result is `nameprep(attr) + '=' + safeattr(value)`. -/
def xmlAttr (attr : String) (v : LiveValue) : List Char :=
  let sv := match v with
    | .lTrue => SVal.raw attr
    | .lStr w => w
  (nameprep attr).toList ++ '=' :: (svalStr (safeattr sv)).toList

/-- `HTMLBuilder._attr_quote.search(value)`: does the value contain one of
the characters (space, double quote, apostrophe, equals, angle brackets,
backtick) that force quoting? -/
def attrNeedsQuote (s : String) : Bool :=
  s.toList.any fun c => c ∈ " \"'=<>`".toList

/-- `HTMLBuilder._attr`: `True` or a value textually equal to the attribute
name collapse to the bare prepared name; empty values and values matching
`_attr_quote` fall back to the XML rule; anything else is written
unquoted as `name=value`. -/
def htmlAttr (attr : String) (v : LiveValue) : List Char :=
  match v with
  | .lTrue => (nameprep attr).toList
  | .lStr sv =>
    if attr = svalStr sv then (nameprep attr).toList
    else if svalStr sv = "" ∨ attrNeedsQuote (svalStr sv) then xmlAttr attr (.lStr sv)
    else (nameprep attr).toList ++ '=' :: (svalStr sv).toList

/-- The variant-specific policy a builder subclass carries: the closing
syntax of empty tags, the void-tag set, and the `_attr` operation. -/
structure Variant where
  endEmptyTag : String
  emptyTags : List String
  attrF : String → LiveValue → List Char

/-- The `XMLBuilder` policy: `/>` closes empty tags, no void tags,
XML attribute quoting. -/
def xmlVariant : Variant := ⟨"/>", [], xmlAttr⟩

/-- The `HTMLBuilder` policy: `>` closes empty tags, the HTML5 void-element
list, HTML attribute quoting. -/
def htmlVariant : Variant :=
  ⟨">", ["area", "base", "br", "col", "embed", "hr", "img", "input",
         "link", "meta", "source", "track", "wbr"], htmlAttr⟩

/-- One `Element`: its prepared tag name and its serialized attribute
string (the builder reference is passed separately). -/
structure ElementState where
  name : String
  attrs : List Char
deriving DecidableEq

/-- `Element.__init__`: apply name preparation, start with no attributes.
No validation of any kind is performed. -/
def elementInit (name : String) : ElementState :=
  ⟨nameprep name, []⟩

/-- `Element.__enter__`: write the opening tag and increment the depth
afterwards. -/
def elementEnter (el : ElementState) (st : BuilderState) : BuilderState :=
  _write st ("<" ++ el.name ++ String.mk el.attrs ++ ">") 1

/-- `Element.__exit__`: with an in-flight exception (`exc = true`) return
`False` (re-raise) and touch nothing; otherwise decrement the depth and
write the closing tag, returning `True`.  The returned `Bool` is the
context-manager suppression flag. -/
def elementExit (el : ElementState) (exc : Bool) (st : BuilderState) :
    BuilderState × Bool :=
  if exc then (st, false)
  else (_write st ("</" ++ el.name ++ ">") (-1), true)

/-- The positional `_value` argument of `Element.__call__`: the `_empty`
sentinel, `None`, or a (possibly `Safe`) string. -/
inductive Content where
  | cEmpty
  | cNone
  | cStr (v : SVal)
deriving DecidableEq

/-- `_value is None`. -/
def isNoneContent : Content → Bool
  | .cNone => true
  | _ => false

/-- `Element.__call__`: serialize the attributes through the owning
builder's `_attr` policy, pad a trailing `/`, then emit the void form,
the one-line content form, or (for the `_empty` sentinel on a non-void
tag) nothing at all.  `_pre` and `_post` hug the tag through `safetext`. -/
def callElement (v : Variant) (el : ElementState) (c : Content)
    (pre post : SVal) (attrs : List (String × AttrValue)) (st : BuilderState) :
    ElementState × BuilderState :=
  let a0 := renderAttrs v.attrF attrs
  let a1 := if a0.getLast? = some '/' then a0 ++ [' '] else a0
  let el1 : ElementState := ⟨el.name, a1⟩
  if isNoneContent c || v.emptyTags.contains el1.name then
    (el1, _write st (svalStr (safetext pre) ++ "<" ++ el1.name ++ String.mk a1
      ++ v.endEmptyTag ++ svalStr (safetext post)) 0)
  else
    match c with
    | .cStr sv =>
      (el1, _write st (svalStr (safetext pre) ++ "<" ++ el1.name ++ String.mk a1
        ++ ">" ++ svalStr (safetext sv) ++ "</" ++ el1.name ++ ">"
        ++ svalStr (safetext post)) 0)
    | _ => (el1, st)

/-- Closed form of `_write`, shared by the proofs below. -/
theorem write_closed_form (st : BuilderState) (line : String) (d : Int) :
    _write st line d =
      ⟨st.document ++ [match st.indent with
        | some u => String.join (List.replicate
            (st.indentation + if d < 0 then d else 0).toNat u) ++ line ++ "\n"
        | none => line],
       st.indentation + d, st.indent⟩ := by
  cases st with
  | mk doc ind unit =>
    by_cases h1 : d < 0
    · have h2 : ¬ d > 0 := by omega
      cases unit <;> simp [_write, h1, h2]
    · by_cases h2 : d > 0
      · cases unit <;> simp [_write, h1, h2]
      · have h0 : d = 0 := by omega
        subst h0
        cases unit <;> simp [_write]

/-- C6: closed form of the line-writing operation.  The final depth is
always the old depth plus the delta, but the indent prefix is computed
from the decremented depth when the delta is negative (a closing tag is
written at the depth of the scope it closes) and from the undisturbed
old depth when the delta is positive (opening takes effect from the next
line); with indent unit `u` the prefix is exactly `depth` copies of `u`
followed by the line and a newline, and with indent `None` the appended
chunk is the line itself — no prefix, no terminator — while the depth
is still updated. -/
theorem write_framing (st : BuilderState) (line : String) (d : Int) :
    _write st line d =
      ⟨st.document ++ [match st.indent with
        | some u => String.join (List.replicate
            (st.indentation + if d < 0 then d else 0).toNat u) ++ line ++ "\n"
        | none => line],
       st.indentation + d, st.indent⟩ :=
  write_closed_form st line d

/-- C7: exiting a scope while an exception is in flight writes nothing,
changes neither the document buffer nor the indentation depth (the whole
builder state is returned untouched), and returns `False` so the
exception propagates unchanged to the caller. -/
theorem exit_on_error_changes_nothing (el : ElementState) (st : BuilderState) :
    elementExit el true st = (st, false) := rfl

/-- C10: under the HTML policy an attribute with a raw empty-string value
falls back to the XML quoting rule and is rendered in the quoted form
`name=""`, never unquoted.  (Attribute names come from `**attrs` keyword
arguments and are therefore nonempty identifiers, hence `a ≠ ""`.) -/
theorem html_empty_value_stays_quoted (a : String) (h : a ≠ "") :
    htmlAttr a (.lStr (.raw "")) = (nameprep a).toList ++ ['=', '"', '"'] := by
  have h1 : ¬ (a = svalStr (SVal.raw "")) := h
  show (if a = svalStr (SVal.raw "") then (nameprep a).toList
    else if svalStr (SVal.raw "") = "" ∨ attrNeedsQuote (svalStr (SVal.raw ""))
      then xmlAttr a (.lStr (.raw ""))
    else (nameprep a).toList ++ '=' :: (svalStr (SVal.raw "")).toList) = _
  rw [if_neg h1, if_pos (show svalStr (SVal.raw "") = ""
    ∨ attrNeedsQuote (svalStr (SVal.raw "")) = true from Or.inl rfl)]
  show (nameprep a).toList ++ '=' :: (svalStr (safeattr (SVal.raw ""))).toList = _
  have hq : (svalStr (safeattr (SVal.raw ""))).toList = ['"', '"'] := by decide
  rw [hq]

/-- Witness for `html_empty_value_stays_quoted` at the attribute `value`. -/
theorem html_empty_value_stays_quoted_witness :
    htmlAttr "value" (.lStr (.raw "")) = (nameprep "value").toList ++ ['=', '"', '"'] :=
  html_empty_value_stays_quoted "value" (by decide)

/-- A name containing none of the characters touched by escaping,
attribute quoting, or name preparation. -/
def plainName (a : String) : Bool :=
  a.toList.all fun c => c ∉ "&<>\"'\n\r\t_".toList

theorem colonrep_id (s : List Char) (h : '_' ∉ s) : colonrep s = s := by
  induction s with
  | nil => rfl
  | cons c t ih =>
    have hc : ¬ c = '_' := fun hcp => h (hcp ▸ List.mem_cons_self c t)
    rw [colonrep_cons_ne c hc, ih (fun hm => h (List.mem_cons_of_mem c hm))]

theorem quoteattrL_plain (s : List Char)
    (h1 : '&' ∉ s) (h2 : '>' ∉ s) (h3 : '<' ∉ s) (h4 : '\n' ∉ s)
    (h5 : '\r' ∉ s) (h6 : '\t' ∉ s) (h7 : '"' ∉ s) :
    quoteattrL s = '"' :: s ++ ['"'] := by
  have he : escapeL s = s := by
    unfold escapeL
    rw [replaceChar_id '&' _ s h1, replaceChar_id '>' _ s h2,
      replaceChar_id '<' _ s h3]
  unfold quoteattrL
  rw [he, replaceChar_id '\n' _ s h4, replaceChar_id '\r' _ s h5,
    replaceChar_id '\t' _ s h6]
  unfold quoteWrap
  rw [if_neg h7]

theorem nameprep_plain (a : String) (h : plainName a = true) : nameprep a = a := by
  have hall : ∀ c ∈ a.toList, c ∉ "&<>\"'\n\r\t_".toList := by
    intro c hc
    have := List.all_eq_true.mp h c hc
    simpa using this
  have hu : '_' ∉ a.toList := fun hm => hall '_' hm (by decide)
  have hfind : kwlist.find? (fun k => a == k ++ "_") = none := by
    rw [List.find?_eq_none]
    intro k hk
    simp only [beq_iff_eq]
    intro heq
    apply hu
    rw [heq, String.toList, String.data_append]
    exact List.mem_append_right _ (by decide)
  unfold nameprep kwunmangle
  rw [hfind]
  show String.mk (colonrep a.toList) = a
  rw [colonrep_id a.toList hu]
  cases a with
  | mk l => rfl

/-- C4 amended: (1)–(2) an attribute whose value is `None` or `False` is
dropped from the serialized attribute string entirely; (3) under the XML
policy a `True` value emits the prepared name, `=`, and the raw supplied
name run through attribute quoting — which is exactly `name="name"` for
(4) any plain name, i.e. one free of quoting-relevant characters and
underscores; (5) under the HTML policy `True` emits the bare prepared
name, as does (6) a string value textually equal to the supplied
attribute name. -/
theorem attribute_value_policy :
    (∀ (f : String → LiveValue → List Char)
        (pre post : List (String × AttrValue)) (a : String),
      renderAttrs f (pre ++ (a, .aNone) :: post) = renderAttrs f (pre ++ post)) ∧
    (∀ (f : String → LiveValue → List Char)
        (pre post : List (String × AttrValue)) (a : String),
      renderAttrs f (pre ++ (a, .aFalse) :: post) = renderAttrs f (pre ++ post)) ∧
    (∀ a : String, xmlAttr a .lTrue = (nameprep a).toList ++ '=' :: (quoteattr a).toList) ∧
    (∀ a : String, plainName a = true →
      xmlAttr a .lTrue = (a ++ "=\"" ++ a ++ "\"").toList) ∧
    (∀ a : String, htmlAttr a .lTrue = (nameprep a).toList) ∧
    (∀ (a : String) (sv : SVal), svalStr sv = a →
      htmlAttr a (.lStr sv) = (nameprep a).toList) := by
  refine ⟨?_, ?_, fun a => rfl, ?_, fun a => rfl, ?_⟩
  · intro f pre post a
    simp [renderAttrs, liveValue]
  · intro f pre post a
    simp [renderAttrs, liveValue]
  · intro a h
    have hall : ∀ c ∈ a.toList, c ∉ "&<>\"'\n\r\t_".toList := by
      intro c hc
      have := List.all_eq_true.mp h c hc
      simpa using this
    have hq : quoteattrL a.toList = '"' :: a.toList ++ ['"'] :=
      quoteattrL_plain a.toList
        (fun hm => hall '&' hm (by decide)) (fun hm => hall '>' hm (by decide))
        (fun hm => hall '<' hm (by decide)) (fun hm => hall '\n' hm (by decide))
        (fun hm => hall '\r' hm (by decide)) (fun hm => hall '\t' hm (by decide))
        (fun hm => hall '"' hm (by decide))
    have h3 : xmlAttr a .lTrue
        = (nameprep a).toList ++ '=' :: (quoteattr a).toList := rfl
    rw [h3, nameprep_plain a h]
    show a.toList ++ '=' :: (quoteattrL a.toList) = _
    rw [hq]
    show a.toList ++ '=' :: '"' :: (a.toList ++ ['"'])
      = ((a ++ "=\"" ++ a ++ "\"")).toList
    simp only [String.toList, String.data_append]
    show a.data ++ '=' :: '"' :: (a.data ++ ['"'])
      = a.data ++ ['=', '"'] ++ a.data ++ ['"']
    simp
  · intro a sv h
    simp [htmlAttr, h]

/-- C4 counterexample: for the mangled attribute name `class_` with value
`True`, the XML policy emits `class="class_"` — the prepared name on the
left but the raw name inside the quotes — which is not of the form
`name="name"` under either reading of `name`. -/
theorem xml_true_attribute_counterexample :
    xmlAttr "class_" .lTrue = ("class=\"class_\"").toList ∧
    ("class=\"class_\"" : String) ≠ "class_=\"class_\"" ∧
    ("class=\"class_\"" : String) ≠ "class=\"class\"" := by
  refine ⟨by decide, by decide, by decide⟩

/-- Witness for `attribute_value_policy`: a dropped `None` attribute, the
plain name `href` with value `True`, and the HTML name-equals-value
collapse for `hidden`. -/
theorem attribute_value_policy_witness :
    renderAttrs xmlAttr ([("href", .aStr (.raw "x"))] ++ ("id", .aNone) :: [])
      = renderAttrs xmlAttr ([("href", .aStr (.raw "x"))] ++ []) ∧
    xmlAttr "href" .lTrue = ("href" ++ "=\"" ++ "href" ++ "\"").toList ∧
    htmlAttr "hidden" (.lStr (.raw "hidden")) = (nameprep "hidden").toList :=
  ⟨attribute_value_policy.1 xmlAttr [("href", .aStr (.raw "x"))] [] "id",
   attribute_value_policy.2.2.2.1 "href" (by decide),
   attribute_value_policy.2.2.2.2.2 "hidden" (.raw "hidden") rfl⟩

/-- The element-construction rule as the specification states it, for
comparison with the code's `elementInit`: an invalid name (the empty
string) must be rejected with a local validation failure at
construction time; valid names construct as the code does. -/
def elementInitSpec (name : String) : Option ElementState :=
  if name = "" then none else some (elementInit name)

/-- C9 counterexample: constructing an element from the empty name
succeeds in the code — `Element.__init__` contains no validation and
yields a fully formed element with empty prepared name — whereas the
claim requires a validation failure (`elementInitSpec` returns `none`). -/
theorem element_construction_does_not_validate :
    elementInit "" = ⟨"", []⟩ ∧ elementInitSpec "" = none :=
  ⟨rfl, rfl⟩

/-- C9 amended: element construction is total and performs no validation —
every name, the empty string included, is accepted with only name
preparation applied — and an empty-named element flows through to
emission, producing the ill-formed output `</>` instead of an error. -/
theorem element_construction_total :
    (∀ name : String, elementInit name = ⟨nameprep name, []⟩) ∧
    (∀ st : BuilderState, st.indent = none →
      ((callElement xmlVariant (elementInit "") .cNone (.raw "") (.raw "") []
        st).2).document = st.document ++ ["</>"]) := by
  refine ⟨fun name => rfl, fun st h => ?_⟩
  cases st with
  | mk doc ind unit =>
    have h' : unit = none := h
    subst h'
    rfl

/-- Witness for `element_construction_total` on a fresh compact-mode
builder state. -/
theorem element_construction_total_witness :
    ((callElement xmlVariant (elementInit "") .cNone (.raw "") (.raw "") []
      ⟨[""], 0, none⟩).2).document = [""] ++ ["</>"] :=
  element_construction_total.2 ⟨[""], 0, none⟩ rfl

/-- One scope operation on a document: entering (`__enter__`) or exiting
(`__exit__`, no exception) an element of the given (prepared) name. -/
inductive Event where
  | enter (n : String)
  | exit (n : String)
deriving DecidableEq

/-- Run one scope operation through the element protocol (an element with
no serialized attributes, as produced by plain attribute access). -/
def runEvent (e : Event) (st : BuilderState) : BuilderState :=
  match e with
  | .enter n => elementEnter ⟨n, []⟩ st
  | .exit n => (elementExit ⟨n, []⟩ false st).1

/-- Run a sequence of scope operations on one document. -/
def runEvents : List Event → BuilderState → BuilderState
  | [], st => st
  | e :: es, st => runEvents es (runEvent e st)

/-- The depth delta of one event: `__enter__` passes `+1` to `_write`,
`__exit__` passes `-1`. -/
def stepD : Event → Int → Int
  | .enter _, d => d + 1
  | .exit _, d => d - 1

/-- The indentation depth after a sequence of events. -/
def runDepth : List Event → Int → Int
  | [], d => d
  | e :: es, d => runDepth es (stepD e d)

/-- The minimum indentation depth reached at any point while running a
sequence of events (the initial depth included).  Every `_write` during
the run happens at one of these depths: an opening tag at the depth
before its event, a closing tag at the depth after its event. -/
def minDepth : List Event → Int → Int
  | [], d => d
  | e :: es, d => min d (minDepth es (stepD e d))

/-- A balanced bracket structure of scope operations: the sequences that
strictly nested `with` blocks can produce — empty, a scope wrapped
around a balanced body, or two balanced sequences side by side. -/
inductive BalancedSeq : List Event → Prop where
  | nil : BalancedSeq []
  | wrap (n : String) (es : List Event) : BalancedSeq es →
      BalancedSeq (.enter n :: es ++ [.exit n])
  | comp (es1 es2 : List Event) : BalancedSeq es1 → BalancedSeq es2 →
      BalancedSeq (es1 ++ es2)

/-- Stack-discipline checker: each exit must name the most recently
entered, not yet exited scope. -/
def stackCheck : List Event → List String → Option (List String)
  | [], stk => some stk
  | .enter n :: es, stk => stackCheck es (n :: stk)
  | .exit n :: es, stk =>
    match stk with
    | [] => none
    | m :: stk2 => if n = m then stackCheck es stk2 else none

theorem runDepth_append (xs ys : List Event) (d : Int) :
    runDepth (xs ++ ys) d = runDepth ys (runDepth xs d) := by
  induction xs generalizing d with
  | nil => rfl
  | cons e xs ih => simp [runDepth, ih]

theorem minDepth_le (es : List Event) (d : Int) : minDepth es d ≤ d := by
  cases es with
  | nil => exact le_refl d
  | cons e es => exact min_le_left _ _

theorem minDepth_append (xs ys : List Event) (d : Int) :
    minDepth (xs ++ ys) d
      = min (minDepth xs d) (minDepth ys (runDepth xs d)) := by
  induction xs generalizing d with
  | nil =>
    show minDepth ys d = min d (minDepth ys d)
    exact (min_eq_right (minDepth_le ys d)).symm
  | cons e xs ih =>
    show min d (minDepth (xs ++ ys) (stepD e d)) = _
    rw [ih, ← min_assoc]
    rfl

theorem balanced_runDepth (es : List Event) (h : BalancedSeq es) :
    ∀ d : Int, runDepth es d = d := by
  induction h with
  | nil => intro d; rfl
  | wrap n es hb ih =>
    intro d
    show runDepth (es ++ [Event.exit n]) (d + 1) = d
    rw [runDepth_append, ih]
    show d + 1 - 1 = d
    omega
  | comp es1 es2 h1 h2 ih1 ih2 =>
    intro d
    rw [runDepth_append, ih1, ih2]

theorem balanced_minDepth (es : List Event) (h : BalancedSeq es) :
    ∀ d : Int, d ≤ minDepth es d := by
  induction h with
  | nil => intro d; exact le_refl d
  | wrap n es hb ih =>
    intro d
    show d ≤ min d (minDepth (es ++ [Event.exit n]) (d + 1))
    refine le_min (le_refl d) ?_
    rw [minDepth_append, balanced_runDepth es hb (d + 1)]
    refine le_min (le_trans (by omega) (ih (d + 1))) ?_
    show d ≤ min (d + 1) (minDepth [] (d + 1 - 1))
    exact le_min (by omega) (by show d ≤ d + 1 - 1; omega)
  | comp es1 es2 h1 h2 ih1 ih2 =>
    intro d
    rw [minDepth_append, balanced_runDepth es1 h1 d]
    exact le_min (ih1 d) (ih2 d)

theorem stackCheck_append (xs ys : List Event) (stk : List String) :
    stackCheck (xs ++ ys) stk
      = match stackCheck xs stk with
        | some s => stackCheck ys s
        | none => none := by
  induction xs generalizing stk with
  | nil => rfl
  | cons e xs ih =>
    cases e with
    | enter n =>
      show stackCheck (xs ++ ys) (n :: stk) = _
      rw [ih]
      rfl
    | exit n =>
      cases stk with
      | nil => rfl
      | cons m stk2 =>
        by_cases hm : n = m
        · show (if n = m then stackCheck (xs ++ ys) stk2 else none) = _
          rw [if_pos hm, ih]
          show _ = match (if n = m then stackCheck xs stk2 else none) with
            | some s => stackCheck ys s
            | none => none
          rw [if_pos hm]
        · show (if n = m then stackCheck (xs ++ ys) stk2 else none) = _
          rw [if_neg hm]
          show _ = match (if n = m then stackCheck xs stk2 else none) with
            | some s => stackCheck ys s
            | none => none
          rw [if_neg hm]

theorem balanced_stackCheck (es : List Event) (h : BalancedSeq es) :
    ∀ stk : List String, stackCheck es stk = some stk := by
  induction h with
  | nil => intro stk; rfl
  | wrap n es hb ih =>
    intro stk
    show stackCheck (es ++ [Event.exit n]) (n :: stk) = some stk
    rw [stackCheck_append, ih]
    show stackCheck [Event.exit n] (n :: stk) = some stk
    simp [stackCheck]
  | comp es1 es2 h1 h2 ih1 ih2 =>
    intro stk
    rw [stackCheck_append, ih1]
    exact ih2 stk

theorem runEvents_indentation (es : List Event) :
    ∀ st : BuilderState,
      (runEvents es st).indentation = runDepth es st.indentation := by
  induction es with
  | nil => intro st; rfl
  | cons e es ih =>
    intro st
    show (runEvents es (runEvent e st)).indentation
      = runDepth es (stepD e st.indentation)
    rw [ih]
    congr 1
    cases e with
    | enter n =>
      show (elementEnter ⟨n, []⟩ st).indentation = st.indentation + 1
      rw [elementEnter, write_closed_form]
    | exit n =>
      show (_write st ("</" ++ n ++ ">") (-1)).indentation = st.indentation - 1
      rw [write_closed_form]
      show st.indentation + (-1) = st.indentation - 1
      omega

/-- C3 amended: for every balanced sequence of scope enter/exit operations
on one document, each exit closes the most recently entered unclosed
scope (stack discipline, which makes closing order the reverse of opening
order within every chain of nested scopes), the shared indentation depth
never drops below its initial value at any point of the run, and it
returns to the initial value after the last exit. -/
theorem balanced_scopes_wellformed :
    ∀ es : List Event, BalancedSeq es → ∀ st : BuilderState,
      (runEvents es st).indentation = st.indentation ∧
      st.indentation ≤ minDepth es st.indentation ∧
      stackCheck es [] = some [] := by
  intro es h st
  exact ⟨by rw [runEvents_indentation, balanced_runDepth es h],
    balanced_minDepth es h st.indentation,
    balanced_stackCheck es h []⟩

/-- Witness for `balanced_scopes_wellformed`: the nested sequence
`enter a, enter b, exit b, exit a` on a fresh document. -/
theorem balanced_scopes_wellformed_witness :
    (runEvents [Event.enter "a", Event.enter "b", Event.exit "b",
      Event.exit "a"] ⟨[""], 0, some "  "⟩).indentation = 0 ∧
    (0 : Int) ≤ minDepth [Event.enter "a", Event.enter "b", Event.exit "b",
      Event.exit "a"] 0 ∧
    stackCheck [Event.enter "a", Event.enter "b", Event.exit "b",
      Event.exit "a"] [] = some [] := by
  have hb : BalancedSeq [Event.enter "a", Event.enter "b", Event.exit "b",
      Event.exit "a"] :=
    BalancedSeq.wrap "a" [Event.enter "b", Event.exit "b"]
      (BalancedSeq.wrap "b" [] BalancedSeq.nil)
  exact balanced_scopes_wellformed _ hb ⟨[""], 0, some "  "⟩

/-- The opening-tag lines of a document (tags that are not closing tags
and not declarations). -/
def openLines (doc : List String) : List String :=
  doc.filter fun l => "<".toList.isPrefixOf l.toList
    && !("</".toList.isPrefixOf l.toList) && !("<?".toList.isPrefixOf l.toList)

/-- The closing-tag lines of a document. -/
def closeLines (doc : List String) : List String :=
  doc.filter fun l => "</".toList.isPrefixOf l.toList

/-- C3 counterexample: the balanced sibling sequence
`enter a, exit a, enter b, exit b` opens the tags in the order `a, b` but
also closes them in the order `a, b` — not in the exact reverse order
`b, a` that the claim asserts for every balanced sequence. -/
theorem sibling_scopes_counterexample :
    BalancedSeq [Event.enter "a", Event.exit "a", Event.enter "b",
      Event.exit "b"] ∧
    openLines ((runEvents [Event.enter "a", Event.exit "a", Event.enter "b",
      Event.exit "b"] ⟨[""], 0, none⟩).document) = ["<a>", "<b>"] ∧
    closeLines ((runEvents [Event.enter "a", Event.exit "a", Event.enter "b",
      Event.exit "b"] ⟨[""], 0, none⟩).document) = ["</a>", "</b>"] ∧
    (["</a>", "</b>"] : List String) ≠ ["</b>", "</a>"] := by
  refine ⟨?_, by decide, by decide, by decide⟩
  exact BalancedSeq.comp [Event.enter "a", Event.exit "a"]
    [Event.enter "b", Event.exit "b"]
    (BalancedSeq.wrap "a" [] BalancedSeq.nil) (BalancedSeq.wrap "b" [] BalancedSeq.nil)

/-- The decimal numeric character reference Python's `xmlcharrefreplace`
error handler substitutes for an unencodable character. -/
def charRef (c : Char) : List Char :=
  ("&#" ++ Nat.repr c.toNat ++ ";").toList

/-- A text encoding: the partial map from characters to their encoded
bytes, `none` for characters outside the encoding's repertoire. -/
def Encoding : Type := Char → Option (List Nat)

/-- The `iso-8859-1` encoding: code points up to 255 map to the identical
single byte, everything else is outside the repertoire. -/
def latin1 : Encoding := fun c => if c.toNat ≤ 255 then some [c.toNat] else none

/-- `str.encode(encoding, 'xmlcharrefreplace')`: encode each character,
substituting the numeric character reference for characters the encoding
cannot represent.  Total by construction — it never fails. -/
def encodeXmlcharref (e : Encoding) (s : List Char) : List Nat :=
  s.flatMap fun c =>
    match e c with
    | some bs => bs
    | none => (charRef c).map Char.toNat

/-- `XMLBuilder.__str__`: the concatenation of the document chunks. -/
def builderStr (st : BuilderState) : String := String.join st.document

/-- `XMLBuilder.__bytes__` for a document configured with encoding
`iso-8859-1`. -/
def docBytesLatin1 (st : BuilderState) : List Nat :=
  encodeXmlcharref latin1 (builderStr st).toList

theorem flatMap_chunk_of_mem (f : Char → List Nat) (l : List Char) (c : Char)
    (h : c ∈ l) : ∃ u v, l.flatMap f = u ++ f c ++ v := by
  induction l with
  | nil => cases h
  | cons x xs ih =>
    rw [List.flatMap_cons]
    rcases List.mem_cons.mp h with h1 | h2
    · subst h1
      exact ⟨[], xs.flatMap f, by simp⟩
    · rcases ih h2 with ⟨u, v, hu⟩
      exact ⟨f x ++ u, v, by rw [hu]; simp⟩

/-- C5: the byte projection never fails — `encodeXmlcharref` is a total
function for every encoding and every text — and every character outside
the encoding's repertoire contributes its decimal numeric character
reference to the output bytes; in particular a document whose accumulated
text contains `€`, projected to bytes under `iso-8859-1`, contains the
literal byte substring `&#8364;`. -/
theorem byte_projection_numeric_fallback :
    (∀ (e : Encoding) (s : List Char) (c : Char), c ∈ s → e c = none →
      ∃ u v, encodeXmlcharref e s = u ++ (charRef c).map Char.toNat ++ v) ∧
    (∀ st : BuilderState, '€' ∈ (builderStr st).toList →
      ∃ u v, docBytesLatin1 st
        = u ++ ("&#8364;".toList.map Char.toNat) ++ v) := by
  have hgen : ∀ (e : Encoding) (s : List Char) (c : Char), c ∈ s →
      e c = none →
      ∃ u v, encodeXmlcharref e s = u ++ (charRef c).map Char.toNat ++ v := by
    intro e s c hm he
    rcases flatMap_chunk_of_mem
      (fun c => match e c with
        | some bs => bs
        | none => (charRef c).map Char.toNat) s c hm with ⟨u, v, hu⟩
    refine ⟨u, v, ?_⟩
    show s.flatMap _ = _
    rw [hu]
    simp only [he]
  refine ⟨hgen, fun st hm => ?_⟩
  have he : latin1 '€' = none := by decide
  have hcr : (charRef '€').map Char.toNat
      = "&#8364;".toList.map Char.toNat := by decide
  rcases hgen latin1 (builderStr st).toList '€' hm he with ⟨u, v, hu⟩
  refine ⟨u, v, ?_⟩
  show encodeXmlcharref latin1 (builderStr st).toList = _
  rw [hu, hcr]

/-- Witness for `byte_projection_numeric_fallback`: an `iso-8859-1`
document built through the real pipeline — declaration plus
`xml.tag('€')` — whose byte projection contains `&#8364;`. -/
theorem byte_projection_numeric_fallback_witness :
    ∃ u v, docBytesLatin1
      ((callElement xmlVariant (elementInit "tag") (.cStr (.raw "€"))
        (.raw "") (.raw "") [] (mkXMLBuilder "1.0" "iso-8859-1"
        (some "  "))).2)
      = u ++ ("&#8364;".toList.map Char.toNat) ++ v :=
  byte_projection_numeric_fallback.2 _ (by decide)
